import Mathlib

/-!
Shallow embedding of `IPython/core/extensions.py` (class `ExtensionManager`).

The Python class keeps one piece of owned mutable state, the set
`self.loaded` of extension identifiers, and works against the process-wide
module registry `sys.modules`.  We model the manager state as a structure
holding `loaded` (a `Finset String`, matching Python `set()`) together with
the registry (an association list from identifiers to modules, matching the
slice of `sys.modules` the manager reads and writes).

External collaborators — the import machinery, module `reload`, the
filesystem predicates used by `install_extension`, and the URL filename
derivation of `urllib` — are parameters gathered in a `World` structure.
A `Module` records exactly what the manager observes about a module object:
its `__file__` string, whether each of the two optional hooks
`load_ipython_extension` / `unload_ipython_extension` is present
(`hasattr`), and whether invoking that hook raises.

Each operation returns an `Outcome`: the Python return value (`Except` for
propagated exceptions, `Option String` for the sentinel status strings /
`None`), the post state, and a trace of observable events (hook
invocations, import, reload, filesystem touches) used to state ordering and
"no I/O happened" properties.
-/

deriving instance DecidableEq for Except

namespace IPyExt

/-- What the manager observes about a Python module object: its
`__file__`, presence of the two optional hooks, and whether calling each
hook raises an exception. -/
structure Module where
  file : String
  hasLoad : Bool
  hasUnload : Bool
  loadRaises : Bool
  unloadRaises : Bool
deriving DecidableEq, Repr

/-- Observable events emitted by the operations, in program order. -/
inductive Event where
  | importMod (id : String)
  | legacyWarning (id : String)
  | callLoadHook (id : String) (ok : Bool)
  | callUnloadHook (id : String) (ok : Bool)
  | reloadMod (id : String)
  | ensureDir (dir : String)
  | checkIsFile (path : String)
  | copyFile (src dst : String)
  | download (url dst : String)
deriving DecidableEq, Repr

/-- Python exceptions that the component lets propagate. -/
inductive PyErr where
  | importError (id : String)
  | loadHookError (id : String)
  | unloadHookError (id : String)
  | keyError (id : String)
  | valueError (msg : String) (filename : String)
  | ioError (src dst : String)
deriving DecidableEq, Repr

/-- External collaborators of the manager. `importFn` is `import_module`
(`none` = ImportError), `reloadFn` is `importlib.reload` (the module object
is updated in place, so the registry entry becomes the result),
`isFile` is `os.path.isfile`, `urlFilename` is
`urlparse(url).path.split('/')[-1]`, and `copyFails src dst` says whether
`copyfile`/`urlretrieve` raises on that pair. -/
structure World where
  ipython_dir : String
  importFn : String → Option Module
  reloadFn : String → Module → Module
  isFile : String → Bool
  urlFilename : String → String
  copyFails : String → String → Bool

/-- Manager state: `self.loaded` plus the module registry `sys.modules`
(the slice the manager touches), as an association list. -/
structure EMState where
  loaded : Finset String
  modules : List (String × Module)
deriving DecidableEq

/-- `self.loaded = set()` at construction; the registry is whatever the
process already holds. -/
def initState (ms : List (String × Module)) : EMState :=
  { loaded := ∅, modules := ms }

/-- Result of one operation: Python return value, post state, event trace. -/
structure Outcome where
  ret : Except PyErr (Option String)
  state : EMState
  trace : List Event
deriving DecidableEq

/-- Python `str.startswith`, on the character lists. -/
def strStartsWith (s pre : String) : Bool :=
  pre.data.isPrefixOf s.data

/-- Python `str.endswith`, on the character lists. -/
def strEndsWith (s suf : String) : Bool :=
  suf.data.reverse.isPrefixOf s.data.reverse

/-- `os.path.join` on two components (posix): an absolute second component
discards the first. -/
def joinPath (a b : String) : String :=
  if strStartsWith b "/" then b
  else if strEndsWith a "/" ∨ a = "" then a ++ b
  else a ++ "/" ++ b

/-- `self.ipython_extension_dir = os.path.join(self.shell.ipython_dir, 'extensions')`. -/
def ipython_extension_dir (w : World) : String :=
  joinPath w.ipython_dir "extensions"

/-- `sys.modules[id] = m` (overwrite semantics of a dict assignment). -/
def setModule (ms : List (String × Module)) (id : String) (m : Module) :
    List (String × Module) :=
  (id, m) :: ms.filter (fun p => p.1 ≠ id)

/-- `self._call_load_ipython_extension(mod)`: if the hook is present, call
it (which may raise) and return True; otherwise fall through (None, falsy).
Also yields the hook-invocation event. -/
def call_load_ipython_extension (mod : Module) (id : String) :
    Except PyErr Bool × List Event :=
  if mod.hasLoad then
    if mod.loadRaises then (.error (.loadHookError id), [.callLoadHook id false])
    else (.ok true, [.callLoadHook id true])
  else (.ok false, [])

/-- `self._call_unload_ipython_extension(mod)`, analogously. -/
def call_unload_ipython_extension (mod : Module) (id : String) :
    Except PyErr Bool × List Event :=
  if mod.hasUnload then
    if mod.unloadRaises then (.error (.unloadHookError id), [.callUnloadHook id false])
    else (.ok true, [.callUnloadHook id true])
  else (.ok false, [])

/-- The tail of `load_extension` after the module is available in the
registry: `mod = sys.modules[module_str]`, then attempt the load hook;
on success add to `loaded`, on absence return "no load function". -/
def load_tail (s : EMState) (id : String) (mod : Module) (tr : List Event) :
    Outcome :=
  match call_load_ipython_extension mod id with
  | (.error e, tr2) => { ret := .error e, state := s, trace := tr ++ tr2 }
  | (.ok true, tr2) =>
      { ret := .ok none
        state := { s with loaded := insert id s.loaded }
        trace := tr ++ tr2 }
  | (.ok false, tr2) =>
      { ret := .ok (some "no load function"), state := s, trace := tr ++ tr2 }

/-- `ExtensionManager.load_extension(module_str)`. -/
def load_extension (w : World) (s : EMState) (id : String) : Outcome :=
  if id ∈ s.loaded then
    { ret := .ok (some "already loaded"), state := s, trace := [] }
  else
    match s.modules.lookup id with
    | some mod => load_tail s id mod []
    | none =>
        match w.importFn id with
        | none =>
            { ret := .error (.importError id), state := s, trace := [.importMod id] }
        | some m =>
            let s1 : EMState := { s with modules := setModule s.modules id m }
            let tr :=
              if strStartsWith m.file (ipython_extension_dir w) then
                [Event.importMod id, Event.legacyWarning id]
              else [Event.importMod id]
            load_tail s1 id m tr

/-- `ExtensionManager.unload_extension(module_str)`. -/
def unload_extension (s : EMState) (id : String) : Outcome :=
  if id ∉ s.loaded then
    { ret := .ok (some "not loaded"), state := s, trace := [] }
  else
    match s.modules.lookup id with
    | some mod =>
        match call_unload_ipython_extension mod id with
        | (.error e, tr) => { ret := .error e, state := s, trace := tr }
        | (.ok true, tr) =>
            { ret := .ok none
              state := { s with loaded := s.loaded.erase id }
              trace := tr }
        | (.ok false, tr) =>
            { ret := .ok (some "no unload function"), state := s, trace := tr }
    | none => { ret := .ok none, state := s, trace := [] }

/-- `ExtensionManager.reload_extension(module_str)`.  The function itself
returns None on every non-exceptional path: in the delegate branch the
result of `self.load_extension(module_str)` is not returned. -/
def reload_extension (w : World) (s : EMState) (id : String) : Outcome :=
  if id ∈ s.loaded ∧ (s.modules.lookup id).isSome then
    let o1 := unload_extension s id
    match o1.ret with
    | .error e => { ret := .error e, state := o1.state, trace := o1.trace }
    | .ok _ =>
        match o1.state.modules.lookup id with
        | none =>
            { ret := .error (.keyError id), state := o1.state, trace := o1.trace }
        | some mod =>
            let mod2 := w.reloadFn id mod
            let s2 : EMState :=
              { o1.state with modules := setModule o1.state.modules id mod2 }
            let tr2 := o1.trace ++ [Event.reloadMod id]
            match call_load_ipython_extension mod2 id with
            | (.error e, tr3) => { ret := .error e, state := s2, trace := tr2 ++ tr3 }
            | (.ok true, tr3) =>
                { ret := .ok none
                  state := { s2 with loaded := insert id s2.loaded }
                  trace := tr2 ++ tr3 }
            | (.ok false, tr3) =>
                { ret := .ok none, state := s2, trace := tr2 ++ tr3 }
  else
    let o := load_extension w s id
    { ret := match o.ret with | .error e => .error e | .ok _ => .ok none
      state := o.state
      trace := o.trace }

/-- `os.path.basename` (posix): the part after the last slash. -/
def basename (p : String) : String :=
  String.mk ((p.data.reverse.takeWhile (fun c => c ≠ '/')).reverse)

/-- Helper for `os.path.splitext`: on the reversed character list, split
off the reversed extension candidate (up to and including the first dot),
failing if a slash or the end of the string comes first. -/
def splitDotRev : List Char → Option (List Char × List Char)
  | [] => none
  | c :: rest =>
      if c = '/' then none
      else if c = '.' then some ([c], rest)
      else
        match splitDotRev rest with
        | none => none
        | some (e, r) => some (c :: e, r)

/-- Helper for `os.path.splitext`: Python requires a non-dot character
between the last slash and the extension dot (so ".py" and "..py" have no
extension).  Scans the reversed remainder up to the next slash. -/
def hasNonDotBeforeSep : List Char → Bool
  | [] => false
  | c :: rest =>
      if c = '/' then false
      else if c = '.' then hasNonDotBeforeSep rest
      else true

/-- `os.path.splitext(p)[1]` (posix): the extension of the final path
component, or the empty string. -/
def splitext_ext (p : String) : String :=
  match splitDotRev p.data.reverse with
  | some (extRev, rest) =>
      if hasNonDotBeforeSep rest then String.mk extRev.reverse else ""
  | none => ""

/-- Outcome of `install_extension`: Python return value (the destination
path on success) and the event trace. `install_extension` never touches
the manager state. -/
structure InstallOutcome where
  ret : Except PyErr String
  trace : List Event
deriving DecidableEq

/-- The default destination filename: the source basename for a local
file, the last URL path segment otherwise; an explicit `filename`
argument overrides it. -/
def destFilename (w : World) (url : String) (fname : Option String) : String :=
  fname.getD (if w.isFile url then basename url else w.urlFilename url)

/-- `ExtensionManager.install_extension(url, filename=None)`. -/
def install_extension (w : World) (url : String) (fname : Option String) :
    InstallOutcome :=
  let dir := ipython_extension_dir w
  let tr0 := [Event.ensureDir dir, Event.checkIsFile url]
  let isLocal := w.isFile url
  let filename := destFilename w url fname
  if splitext_ext filename = ".py" ∨ splitext_ext filename = ".zip" then
    let dest := joinPath dir filename
    let trCopy :=
      if isLocal then [Event.copyFile url dest] else [Event.download url dest]
    if w.copyFails url dest then
      { ret := .error (.ioError url dest), trace := tr0 ++ trCopy }
    else
      { ret := .ok dest, trace := tr0 ++ trCopy }
  else
    { ret := .error (.valueError "The file must have a .py or .zip extension" filename)
      trace := tr0 }

/-- The manager operations, for quantifying over call sequences. -/
inductive Op where
  | load (id : String)
  | unload (id : String)
  | reload (id : String)
  | install (url : String) (fname : Option String)

/-- Run one operation: resulting manager state and emitted events
(`install_extension` never reads or writes the manager state). -/
def runOp (w : World) (s : EMState) : Op → EMState × List Event
  | .load id => ((load_extension w s id).state, (load_extension w s id).trace)
  | .unload id => ((unload_extension s id).state, (unload_extension s id).trace)
  | .reload id => ((reload_extension w s id).state, (reload_extension w s id).trace)
  | .install url fname => (s, (install_extension w url fname).trace)

/-- Run a sequence of operations, concatenating the event traces. -/
def runOps (w : World) (s : EMState) : List Op → EMState × List Event
  | [] => (s, [])
  | op :: ops =>
      let r1 := runOp w s op
      let r2 := runOps w r1.1 ops
      (r2.1, r1.2 ++ r2.2)

/-- One step of the loaded-status automaton for identifier `id`: a
successfully completed load hook call sets it, a successfully completed
unload hook call clears it, everything else leaves it. -/
def loadedStep (id : String) (b : Bool) : Event → Bool
  | .callLoadHook i true => if i = id then true else b
  | .callUnloadHook i true => if i = id then false else b
  | _ => b

/-- Whether `id` counts as loaded after observing `tr`, starting from
status `b`. -/
def loadedFrom (id : String) (b : Bool) (tr : List Event) : Bool :=
  tr.foldl (loadedStep id) b

/-- The same automaton read from the back: folding `loadedStep` from the
right over a reversed trace, so the first decisive event of the list
wins. -/
def activeRev (id : String) (b : Bool) (l : List Event) : Bool :=
  l.foldr (fun e acc => loadedStep id acc e) b

/-- The spec's phrasing of the invariant: some load hook call for `id`
completed successfully, and no successful unload hook call for `id`
occurs after it. -/
def LoadActive (tr : List Event) (id : String) : Prop :=
  ∃ t1 t2, tr = t1 ++ Event.callLoadHook id true :: t2 ∧
    Event.callUnloadHook id true ∉ t2

/-- The module `load_extension` ends up consulting for `id`: the registry
entry when present (the import is skipped), otherwise the freshly imported
module. -/
def resolveModule (w : World) (s : EMState) (id : String) : Option Module :=
  match s.modules.lookup id with
  | some m => some m
  | none => w.importFn id

/-- Fixture: a module with both hooks, neither raising. -/
def modBoth : Module :=
  { file := "/site/ext.py", hasLoad := true, hasUnload := true
    loadRaises := false, unloadRaises := false }

/-- Fixture: a module with neither hook. -/
def modNone : Module :=
  { file := "/site/ext.py", hasLoad := false, hasUnload := false
    loadRaises := false, unloadRaises := false }

/-- Fixture: a module whose hooks are present but raise. -/
def modRaises : Module :=
  { file := "/site/ext.py", hasLoad := true, hasUnload := true
    loadRaises := true, unloadRaises := true }

/-- Fixture world: every import yields `modBoth`, reload is the identity,
every path is a local file, no copy fails. -/
def wFix : World :=
  { ipython_dir := "/home/u/.ipython"
    importFn := fun _ => some modBoth
    reloadFn := fun _ m => m
    isFile := fun _ => true
    urlFilename := fun _ => "u.py"
    copyFails := fun _ _ => false }

/-- Fixture world whose imports yield a module with no hooks. -/
def wNoHooks : World := { wFix with importFn := fun _ => some modNone }

/-- Fixture world whose imports yield a module with raising hooks. -/
def wRaises : World := { wFix with importFn := fun _ => some modRaises }

/-- Fixture: the freshly constructed manager state over an empty registry. -/
def sEmpty : EMState := initState []

/-- Fixture: `"ext"` loaded and present in the registry. -/
def sLoaded : EMState := { loaded := {"ext"}, modules := [("ext", modBoth)] }

/-- Fixture: `"ext"` loaded and in the registry, but its module lacks both
hooks. -/
def sLoadedNoHooks : EMState := { loaded := {"ext"}, modules := [("ext", modNone)] }

/-- Fixture: `"ext"` loaded and in the registry, with raising hooks. -/
def sLoadedRaises : EMState := { loaded := {"ext"}, modules := [("ext", modRaises)] }

/-- Fixture: the anomalous state — `"ext"` in `loaded` but absent from the
registry. -/
def sAnomalous : EMState := { loaded := {"ext"}, modules := [] }

theorem load_tail_no_hook (s : EMState) (id : String) (mod : Module)
    (tr : List Event) (h : mod.hasLoad = false) :
    load_tail s id mod tr =
      { ret := .ok (some "no load function"), state := s, trace := tr } := by
  unfold load_tail call_load_ipython_extension
  simp [h]

theorem load_tail_raises (s : EMState) (id : String) (mod : Module)
    (tr : List Event) (h1 : mod.hasLoad = true) (h2 : mod.loadRaises = true) :
    load_tail s id mod tr =
      { ret := .error (.loadHookError id), state := s
        trace := tr ++ [.callLoadHook id false] } := by
  unfold load_tail call_load_ipython_extension
  simp [h1, h2]

theorem load_tail_ok (s : EMState) (id : String) (mod : Module)
    (tr : List Event) (h1 : mod.hasLoad = true) (h2 : mod.loadRaises = false) :
    load_tail s id mod tr =
      { ret := .ok none, state := { s with loaded := insert id s.loaded }
        trace := tr ++ [.callLoadHook id true] } := by
  unfold load_tail call_load_ipython_extension
  simp [h1, h2]

theorem load_tail_ok_none_mem (s : EMState) (id : String) (mod : Module)
    (tr : List Event) (h : (load_tail s id mod tr).ret = .ok none) :
    id ∈ (load_tail s id mod tr).state.loaded := by
  by_cases h1 : mod.hasLoad
  · by_cases h2 : mod.loadRaises
    · rw [load_tail_raises s id mod tr h1 h2] at h
      exact absurd h (by simp)
    · rw [load_tail_ok s id mod tr h1 (by simpa using h2)]
      exact Finset.mem_insert_self id s.loaded
  · rw [load_tail_no_hook s id mod tr (by simpa using h1)] at h
    exact absurd h (by simp)

/-- C2: after a successful `load_extension(id)` (return value `None`, which
requires the module to define `load_ipython_extension`), `id` is in
`loaded`; and calling `load_extension(id)` when `id` is already in `loaded`
returns `"already loaded"` and leaves the whole state — `loaded` and the
module registry — unchanged. -/
theorem c2_load_success_and_idempotence (w : World) (s : EMState) (id : String) :
    ((load_extension w s id).ret = .ok none →
      id ∈ (load_extension w s id).state.loaded) ∧
    (id ∈ s.loaded →
      load_extension w s id =
        { ret := .ok (some "already loaded"), state := s, trace := [] }) := by
  constructor
  · intro h
    unfold load_extension at h ⊢
    by_cases hl : id ∈ s.loaded
    · rw [if_pos hl] at h
      exact absurd h (by simp)
    · rw [if_neg hl] at h ⊢
      cases hm : s.modules.lookup id with
      | some mod =>
          simp only [hm] at h ⊢
          exact load_tail_ok_none_mem _ _ _ _ h
      | none =>
          simp only [hm] at h ⊢
          cases hi : w.importFn id with
          | none =>
              simp only [hi] at h
              exact absurd h (by simp)
          | some m =>
              simp only [hi] at h ⊢
              exact load_tail_ok_none_mem _ _ _ _ h
  · intro h
    unfold load_extension
    rw [if_pos h]

/-- C2 witness: concrete runs of both conjuncts. -/
theorem c2_witness :
    ((load_extension wFix sEmpty "ext").ret = .ok none ∧
      "ext" ∈ (load_extension wFix sEmpty "ext").state.loaded) ∧
    ("ext" ∈ sLoaded.loaded ∧
      load_extension wFix sLoaded "ext" =
        { ret := .ok (some "already loaded"), state := sLoaded, trace := [] }) :=
  ⟨⟨by decide, (c2_load_success_and_idempotence wFix sEmpty "ext").1 (by decide)⟩,
   ⟨by decide, (c2_load_success_and_idempotence wFix sLoaded "ext").2 (by decide)⟩⟩

/-- C5: for `id` not already loaded whose resolved module (registry entry,
or else the import result) lacks `load_ipython_extension`,
`load_extension(id)` returns `"no load function"` and `loaded` is
unchanged (so `id` is not added). -/
theorem c5_no_load_function (w : World) (s : EMState) (id : String) (m : Module)
    (hnl : id ∉ s.loaded) (hm : resolveModule w s id = some m)
    (hh : m.hasLoad = false) :
    (load_extension w s id).ret = .ok (some "no load function") ∧
    (load_extension w s id).state.loaded = s.loaded := by
  unfold load_extension
  rw [if_neg hnl]
  cases hlk : s.modules.lookup id with
  | some mod =>
      simp only [resolveModule, hlk] at hm
      cases hm
      simp only [hlk]
      rw [load_tail_no_hook s id m [] hh]
      exact ⟨rfl, rfl⟩
  | none =>
      simp only [resolveModule, hlk] at hm
      simp only [hlk, hm]
      rw [load_tail_no_hook _ id m _ hh]
      exact ⟨rfl, rfl⟩

/-- C5 witness: loading a hook-less module from an empty state. -/
theorem c5_witness :
    ("ext" ∉ sEmpty.loaded ∧ resolveModule wNoHooks sEmpty "ext" = some modNone ∧
      modNone.hasLoad = false) ∧
    (load_extension wNoHooks sEmpty "ext").ret = .ok (some "no load function") ∧
    (load_extension wNoHooks sEmpty "ext").state.loaded = sEmpty.loaded :=
  ⟨⟨by decide, by decide, by decide⟩,
   c5_no_load_function wNoHooks sEmpty "ext" modNone (by decide) (by decide) (by decide)⟩

/-- C6: `unload_extension(id)` returns `"not loaded"` and leaves the state
unchanged when `id` is not in `loaded`; and when `id` is in `loaded`, in
the registry, and its module lacks `unload_ipython_extension`, it returns
`"no unload function"` with the state unchanged, so `id` stays in
`loaded`. -/
theorem c6_unload_statuses (s : EMState) (id : String) (m : Module) :
    (id ∉ s.loaded →
      unload_extension s id =
        { ret := .ok (some "not loaded"), state := s, trace := [] }) ∧
    (id ∈ s.loaded → s.modules.lookup id = some m → m.hasUnload = false →
      unload_extension s id =
        { ret := .ok (some "no unload function"), state := s, trace := [] } ∧
      id ∈ (unload_extension s id).state.loaded) := by
  constructor
  · intro h
    unfold unload_extension
    rw [if_pos h]
  · intro h1 h2 h3
    have hout : unload_extension s id =
        { ret := .ok (some "no unload function"), state := s, trace := [] } := by
      unfold unload_extension
      rw [if_neg (by simpa using h1), h2]
      unfold call_unload_ipython_extension
      simp [h3]
    exact ⟨hout, by rw [hout]; exact h1⟩

/-- C6 witness: both branches on concrete states. -/
theorem c6_witness :
    ("ext" ∉ sEmpty.loaded ∧
      unload_extension sEmpty "ext" =
        { ret := .ok (some "not loaded"), state := sEmpty, trace := [] }) ∧
    ("ext" ∈ sLoadedNoHooks.loaded ∧
      unload_extension sLoadedNoHooks "ext" =
        { ret := .ok (some "no unload function"), state := sLoadedNoHooks, trace := [] } ∧
      "ext" ∈ (unload_extension sLoadedNoHooks "ext").state.loaded) :=
  ⟨⟨by decide, (c6_unload_statuses sEmpty "ext" modNone).1 (by decide)⟩,
   ⟨by decide, (c6_unload_statuses sLoadedNoHooks "ext" modNone).2
      (by decide) (by decide) (by decide)⟩⟩

/-- C8: for `id` in `loaded` but absent from the registry,
`unload_extension(id)` returns `None` (no status string, no exception) and
leaves the state unchanged, so `id` stays in `loaded`. -/
theorem c8_unload_anomalous (s : EMState) (id : String)
    (h1 : id ∈ s.loaded) (h2 : s.modules.lookup id = none) :
    unload_extension s id = { ret := .ok none, state := s, trace := [] } ∧
    id ∈ (unload_extension s id).state.loaded := by
  have hout : unload_extension s id =
      { ret := .ok none, state := s, trace := [] } := by
    unfold unload_extension
    rw [if_neg (by simpa using h1), h2]
  exact ⟨hout, by rw [hout]; exact h1⟩

/-- C8 witness: the anomalous fixture state. -/
theorem c8_witness :
    ("ext" ∈ sAnomalous.loaded ∧ sAnomalous.modules.lookup "ext" = none) ∧
    unload_extension sAnomalous "ext" =
      { ret := .ok none, state := sAnomalous, trace := [] } ∧
    "ext" ∈ (unload_extension sAnomalous "ext").state.loaded :=
  ⟨⟨by decide, by decide⟩,
   c8_unload_anomalous sAnomalous "ext" (by decide) (by decide)⟩

/-- C10: a raising `load_ipython_extension` hook makes `load_extension`
propagate the exception without adding `id` to `loaded`, and a raising
`unload_ipython_extension` hook makes `unload_extension` propagate the
exception without removing `id` from `loaded`. -/
theorem c10_hook_error_atomicity (w : World) (s : EMState) (id : String)
    (m : Module) :
    (id ∉ s.loaded → resolveModule w s id = some m → m.hasLoad = true →
      m.loadRaises = true →
      (load_extension w s id).ret = .error (.loadHookError id) ∧
      (load_extension w s id).state.loaded = s.loaded) ∧
    (id ∈ s.loaded → s.modules.lookup id = some m → m.hasUnload = true →
      m.unloadRaises = true →
      unload_extension s id =
        { ret := .error (.unloadHookError id), state := s
          trace := [.callUnloadHook id false] }) := by
  constructor
  · intro hnl hm hh hr
    unfold load_extension
    rw [if_neg hnl]
    cases hlk : s.modules.lookup id with
    | some mod =>
        simp only [resolveModule, hlk] at hm
        cases hm
        simp only [hlk]
        rw [load_tail_raises s id m [] hh hr]
        exact ⟨rfl, rfl⟩
    | none =>
        simp only [resolveModule, hlk] at hm
        simp only [hlk, hm]
        rw [load_tail_raises _ id m _ hh hr]
        exact ⟨rfl, rfl⟩
  · intro h1 h2 h3 h4
    unfold unload_extension
    rw [if_neg (by simpa using h1)]
    simp only [h2]
    unfold call_unload_ipython_extension
    simp [h3, h4]

/-- C10 witness: raising hooks on concrete states, for both parts. -/
theorem c10_witness :
    ("ext" ∉ sEmpty.loaded ∧
      ((load_extension wRaises sEmpty "ext").ret = .error (.loadHookError "ext") ∧
        (load_extension wRaises sEmpty "ext").state.loaded = sEmpty.loaded)) ∧
    ("ext" ∈ sLoadedRaises.loaded ∧
      unload_extension sLoadedRaises "ext" =
        { ret := .error (.unloadHookError "ext"), state := sLoadedRaises
          trace := [.callUnloadHook "ext" false] }) :=
  ⟨⟨by decide, (c10_hook_error_atomicity wRaises sEmpty "ext" modRaises).1
      (by decide) (by decide) (by decide) (by decide)⟩,
   ⟨by decide, (c10_hook_error_atomicity wRaises sLoadedRaises "ext" modRaises).2
      (by decide) (by decide) (by decide) (by decide)⟩⟩

/-- C3: for `id` in `loaded` and in the registry, with an unload hook that
completes and a reloaded module whose load hook completes,
`reload_extension(id)` performs exactly: the unload hook call, then the
module reload, then the load hook call, in that order; and `id` ends up in
`loaded`. -/
theorem c3_reload_hook_order (w : World) (s : EMState) (id : String)
    (m : Module) (h1 : id ∈ s.loaded) (h2 : s.modules.lookup id = some m)
    (hu : m.hasUnload = true) (hur : m.unloadRaises = false)
    (hl : (w.reloadFn id m).hasLoad = true)
    (hlr : (w.reloadFn id m).loadRaises = false) :
    (reload_extension w s id).trace =
      [.callUnloadHook id true, .reloadMod id, .callLoadHook id true] ∧
    id ∈ (reload_extension w s id).state.loaded := by
  have hun : unload_extension s id =
      { ret := .ok none, state := { s with loaded := s.loaded.erase id }
        trace := [.callUnloadHook id true] } := by
    unfold unload_extension
    rw [if_neg (by simpa using h1)]
    simp only [h2]
    unfold call_unload_ipython_extension
    simp [hu, hur]
  unfold reload_extension
  rw [if_pos ⟨h1, by rw [h2]; rfl⟩]
  rw [hun]
  simp only [h2]
  unfold call_load_ipython_extension
  simp [hl, hlr]

/-- C3 witness: reloading the loaded fixture extension. -/
theorem c3_witness :
    ("ext" ∈ sLoaded.loaded ∧ sLoaded.modules.lookup "ext" = some modBoth ∧
      modBoth.hasUnload = true ∧ modBoth.unloadRaises = false ∧
      (wFix.reloadFn "ext" modBoth).hasLoad = true ∧
      (wFix.reloadFn "ext" modBoth).loadRaises = false) ∧
    (reload_extension wFix sLoaded "ext").trace =
      [.callUnloadHook "ext" true, .reloadMod "ext", .callLoadHook "ext" true] ∧
    "ext" ∈ (reload_extension wFix sLoaded "ext").state.loaded :=
  ⟨⟨by decide, by decide, by decide, by decide, by decide, by decide⟩,
   c3_reload_hook_order wFix sLoaded "ext" modBoth (by decide) (by decide)
     (by decide) (by decide) (by decide) (by decide)⟩

/-- C7 counterexample: with `"ext"` in `loaded` but absent from the
registry, `load_extension` returns `"already loaded"` while
`reload_extension` returns `None` — the two calls do not return the same
result, so the claimed identical behavior fails. -/
theorem c7_counterexample :
    (load_extension wFix sAnomalous "ext").ret = .ok (some "already loaded") ∧
    (reload_extension wFix sAnomalous "ext").ret = .ok none ∧
    (reload_extension wFix sAnomalous "ext").ret ≠
      (load_extension wFix sAnomalous "ext").ret := by
  decide

/-- C7 (amended): for `id` not in `loaded`, or in `loaded` but absent from
the registry, `reload_extension(id)` delegates to `load_extension(id)`:
it produces the same state and the same events, and propagates the same
exception; but its own return value is `None` whenever `load_extension`
returns normally, because the delegated call's result is discarded. -/
theorem c7_delegation (w : World) (s : EMState) (id : String)
    (h : ¬(id ∈ s.loaded ∧ (s.modules.lookup id).isSome)) :
    (reload_extension w s id).state = (load_extension w s id).state ∧
    (reload_extension w s id).trace = (load_extension w s id).trace ∧
    (reload_extension w s id).ret =
      (match (load_extension w s id).ret with
        | .error e => .error e
        | .ok _ => .ok none) := by
  unfold reload_extension
  rw [if_neg h]
  exact ⟨rfl, rfl, rfl⟩

theorem splitDotRev_append (l e r : List Char) (h : splitDotRev l = some (e, r)) :
    l = e ++ r := by
  induction l generalizing e r with
  | nil => exact absurd h (by simp [splitDotRev])
  | cons c rest ih =>
      unfold splitDotRev at h
      by_cases h1 : c = '/'
      · rw [if_pos h1] at h
        exact absurd h (by simp)
      · rw [if_neg h1] at h
        by_cases h2 : c = '.'
        · rw [if_pos h2] at h
          simp only [Option.some.injEq, Prod.mk.injEq] at h
          obtain ⟨he, hr⟩ := h
          subst he; subst hr
          rfl
        · rw [if_neg h2] at h
          cases hs : splitDotRev rest with
          | none =>
              rw [hs] at h
              exact absurd h (by simp)
          | some p =>
              obtain ⟨e1, r1⟩ := p
              rw [hs] at h
              simp only [Option.some.injEq, Prod.mk.injEq] at h
              obtain ⟨he, hr⟩ := h
              subst he; subst hr
              rw [List.cons_append, ← ih e1 r1 hs]

theorem splitext_ext_suffix (p : String) :
    splitext_ext p = "" ∨ (splitext_ext p).data <:+ p.data := by
  unfold splitext_ext
  cases hs : splitDotRev p.data.reverse with
  | none => exact Or.inl rfl
  | some pr =>
      obtain ⟨e, r⟩ := pr
      by_cases hn : hasNonDotBeforeSep r
      · right
        simp only [hs, if_pos hn]
        have h1 : p.data.reverse = e ++ r := splitDotRev_append _ _ _ hs
        have h2 : p.data = r.reverse ++ e.reverse := by
          have h3 := congrArg List.reverse h1
          simpa using h3
        exact ⟨r.reverse, h2.symm⟩
      · left
        simp only [hs, if_neg hn]

theorem strEndsWith_iff_suffix (s suf : String) :
    strEndsWith s suf = true ↔ suf.data <:+ s.data := by
  unfold strEndsWith
  rw [List.isPrefixOf_iff_prefix]
  exact List.reverse_prefix

theorem splitext_allowed_endsWith (f : String)
    (h : splitext_ext f = ".py" ∨ splitext_ext f = ".zip") :
    strEndsWith f ".py" = true ∨ strEndsWith f ".zip" = true := by
  rcases splitext_ext_suffix f with h0 | h0
  · rcases h with h | h <;> rw [h] at h0 <;> exact absurd h0 (by decide)
  · rcases h with h | h
    · left
      rw [strEndsWith_iff_suffix]
      rw [h] at h0
      exact h0
    · right
      rw [strEndsWith_iff_suffix]
      rw [h] at h0
      exact h0

/-- C4 counterexample: with destination filename `"bad.txt"` the
ValueError is raised, but the filesystem has already been touched — the
trace shows the extension directory being ensured (created if absent)
before the validation ran, so "the filesystem is untouched" fails. -/
theorem c4_counterexample :
    (install_extension wFix "/tmp/src.py" (some "bad.txt")).ret =
      .error (.valueError "The file must have a .py or .zip extension" "bad.txt") ∧
    Event.ensureDir "/home/u/.ipython/extensions" ∈
      (install_extension wFix "/tmp/src.py" (some "bad.txt")).trace := by
  decide

/-- C4 (amended): when the destination filename ends in neither `.py` nor
`.zip`, `install_extension` raises a ValueError naming that filename, and
no copy or download is performed — the only filesystem activity before the
error is ensuring the extension directory and the `isfile` probe of the
source. -/
theorem c4_invalid_extension (w : World) (url : String) (fname : Option String)
    (hpy : strEndsWith (destFilename w url fname) ".py" = false)
    (hzip : strEndsWith (destFilename w url fname) ".zip" = false) :
    (install_extension w url fname).ret =
      .error (.valueError "The file must have a .py or .zip extension"
        (destFilename w url fname)) ∧
    (install_extension w url fname).trace =
      [.ensureDir (ipython_extension_dir w), .checkIsFile url] := by
  have hcond : ¬(splitext_ext (destFilename w url fname) = ".py" ∨
      splitext_ext (destFilename w url fname) = ".zip") := by
    intro h
    rcases splitext_allowed_endsWith _ h with h1 | h1
    · rw [hpy] at h1
      exact absurd h1 (by decide)
    · rw [hzip] at h1
      exact absurd h1 (by decide)
  simp only [install_extension]
  rw [if_neg hcond]
  exact ⟨rfl, rfl⟩

/-- C4 witness: the amended theorem at the counterexample's input. -/
theorem c4_witness :
    (strEndsWith (destFilename wFix "/tmp/src.py" (some "bad.txt")) ".py" = false ∧
      strEndsWith (destFilename wFix "/tmp/src.py" (some "bad.txt")) ".zip" = false) ∧
    ((install_extension wFix "/tmp/src.py" (some "bad.txt")).ret =
        .error (.valueError "The file must have a .py or .zip extension"
          (destFilename wFix "/tmp/src.py" (some "bad.txt"))) ∧
      (install_extension wFix "/tmp/src.py" (some "bad.txt")).trace =
        [.ensureDir (ipython_extension_dir wFix), .checkIsFile "/tmp/src.py"]) :=
  ⟨⟨by decide, by decide⟩,
   c4_invalid_extension wFix "/tmp/src.py" (some "bad.txt") (by decide) (by decide)⟩

theorem ipython_extension_dir_eq (w : World) :
    ∃ x, ipython_extension_dir w = x ++ "extensions" := by
  unfold ipython_extension_dir joinPath
  rw [if_neg (by decide : ¬strStartsWith "extensions" "/" = true)]
  by_cases h : strEndsWith w.ipython_dir "/" = true ∨ w.ipython_dir = ""
  · rw [if_pos h]
    exact ⟨w.ipython_dir, rfl⟩
  · rw [if_neg h]
    exact ⟨w.ipython_dir ++ "/", rfl⟩

theorem slash_not_prefixOf_cons (c : Char) (t : List Char) (h : c ≠ '/') :
    List.isPrefixOf ['/'] (c :: t) = false := by
  have hb : ('/' == c) = false := by
    simp [Ne.symm h]
  simp [List.isPrefixOf, hb]

theorem strEndsWith_append_extensions (x : String) :
    strEndsWith (x ++ "extensions") "/" = false := by
  unfold strEndsWith
  rw [String.data_append, List.reverse_append]
  rw [show "extensions".data.reverse =
    's' :: ['n', 'o', 'i', 's', 'n', 'e', 't', 'x', 'e'] from rfl]
  rw [show "/".data.reverse = ['/'] from rfl]
  rw [List.cons_append]
  exact slash_not_prefixOf_cons 's' _ (by decide)

theorem append_extensions_ne_empty (x : String) : x ++ "extensions" ≠ "" := by
  intro h
  have hd : x.data ++ "extensions".data = [] := by
    rw [← String.data_append, h]
  rcases List.append_eq_nil.mp hd with ⟨h1, h2⟩
  exact absurd h2 (by decide)

theorem joinPath_extension_dir (w : World) (f : String)
    (h : strStartsWith f "/" = false) :
    joinPath (ipython_extension_dir w) f =
      ipython_extension_dir w ++ "/" ++ f := by
  obtain ⟨x, hx⟩ := ipython_extension_dir_eq w
  have hslash : strEndsWith (ipython_extension_dir w) "/" = false := by
    rw [hx]
    exact strEndsWith_append_extensions x
  have hne : ipython_extension_dir w ≠ "" := by
    rw [hx]
    exact append_extensions_ne_empty x
  unfold joinPath
  rw [if_neg (by simp [h]), if_neg (by simp [hslash, hne])]

/-- C9 counterexample: an explicit absolute filename with an allowed
extension is used verbatim by `os.path.join`, so the destination (and the
returned path) is not `<extension_dir>/<filename>` — the file escapes the
extension directory entirely. -/
theorem c9_counterexample :
    splitext_ext "/evil.py" = ".py" ∧
    (install_extension wFix "/tmp/src.py" (some "/evil.py")).ret = .ok "/evil.py" ∧
    "/evil.py" ≠ ipython_extension_dir wFix ++ "/" ++ "/evil.py" := by
  decide

/-- C9 (amended): for an explicit relative filename with an allowed
extension, the destination is `<extension_dir>/<filename>` regardless of
the source path or URL, and on success exactly that full path is
returned (an absolute filename is instead used verbatim, per
`os.path.join`). -/
theorem c9_explicit_filename (w : World) (url fname : String)
    (hrel : strStartsWith fname "/" = false)
    (hext : splitext_ext fname = ".py" ∨ splitext_ext fname = ".zip")
    (hcopy : w.copyFails url (ipython_extension_dir w ++ "/" ++ fname) = false) :
    (install_extension w url (some fname)).ret =
      .ok (ipython_extension_dir w ++ "/" ++ fname) := by
  simp only [install_extension, destFilename, Option.getD_some]
  rw [joinPath_extension_dir w fname hrel]
  rw [if_pos hext]
  rw [if_neg (by simp [hcopy])]

/-- C9 witness: installing with explicit relative filename `"c.py"`. -/
theorem c9_witness :
    (strStartsWith "c.py" "/" = false ∧ splitext_ext "c.py" = ".py" ∧
      wFix.copyFails "/tmp/b.py" (ipython_extension_dir wFix ++ "/" ++ "c.py") = false) ∧
    (install_extension wFix "/tmp/b.py" (some "c.py")).ret =
      .ok (ipython_extension_dir wFix ++ "/" ++ "c.py") :=
  ⟨⟨by decide, by decide, by decide⟩,
   c9_explicit_filename wFix "/tmp/b.py" "c.py" (by decide)
     (Or.inl (by decide)) (by decide)⟩

theorem loadedFrom_nil (id : String) (b : Bool) : loadedFrom id b [] = b := rfl

theorem loadedFrom_append (id : String) (b : Bool) (t1 t2 : List Event) :
    loadedFrom id b (t1 ++ t2) = loadedFrom id (loadedFrom id b t1) t2 := by
  unfold loadedFrom
  apply List.foldl_append

theorem activeRev_cons (id : String) (b : Bool) (e : Event) (rest : List Event) :
    activeRev id b (e :: rest) = loadedStep id (activeRev id b rest) e := rfl

theorem loadedFrom_eq_activeRev_reverse (id : String) (b : Bool)
    (tr : List Event) : loadedFrom id b tr = activeRev id b tr.reverse := by
  unfold loadedFrom activeRev
  rw [List.foldr_reverse]

theorem exists_split_cons_iff (e : Event) (rest : List Event) (id : String)
    (h1 : e ≠ Event.callLoadHook id true)
    (h2 : e ≠ Event.callUnloadHook id true) :
    (∃ s1 s2, e :: rest = s1 ++ Event.callLoadHook id true :: s2 ∧
      Event.callUnloadHook id true ∉ s1) ↔
    (∃ s1 s2, rest = s1 ++ Event.callLoadHook id true :: s2 ∧
      Event.callUnloadHook id true ∉ s1) := by
  constructor
  · rintro ⟨s1, s2, heq, hmem⟩
    cases s1 with
    | nil =>
        rw [List.nil_append] at heq
        exact absurd (List.cons.inj heq).1 h1
    | cons a s1t =>
        rw [List.cons_append] at heq
        obtain ⟨hea, hrest⟩ := List.cons.inj heq
        exact ⟨s1t, s2, hrest, fun hm => hmem (List.mem_cons_of_mem a hm)⟩
  · rintro ⟨s1, s2, heq, hmem⟩
    refine ⟨e :: s1, s2, by rw [List.cons_append, heq], ?_⟩
    intro hm
    rcases List.mem_cons.mp hm with hm | hm
    · exact h2 hm.symm
    · exact hmem hm

theorem no_split_cons_unload (rest : List Event) (id : String) :
    ¬∃ s1 s2,
      Event.callUnloadHook id true :: rest =
        s1 ++ Event.callLoadHook id true :: s2 ∧
      Event.callUnloadHook id true ∉ s1 := by
  rintro ⟨s1, s2, heq, hmem⟩
  cases s1 with
  | nil =>
      rw [List.nil_append] at heq
      exact absurd (List.cons.inj heq).1 (by simp)
  | cons a s1t =>
      rw [List.cons_append] at heq
      obtain ⟨hea, _⟩ := List.cons.inj heq
      exact hmem (by rw [hea]; exact List.mem_cons_self a s1t)

theorem activeRev_false_iff (id : String) (l : List Event) :
    activeRev id false l = true ↔
      ∃ s1 s2, l = s1 ++ Event.callLoadHook id true :: s2 ∧
        Event.callUnloadHook id true ∉ s1 := by
  induction l with
  | nil => simp [activeRev]
  | cons e rest ih =>
      rw [activeRev_cons]
      cases e with
      | callLoadHook i ok =>
          cases ok with
          | true =>
              by_cases hid : i = id
              · have hstep : loadedStep id (activeRev id false rest)
                    (.callLoadHook i true) = true := by
                  simp [loadedStep, hid]
                rw [hstep]
                refine ⟨fun _ => ⟨[], rest, ?_, by simp⟩, fun _ => rfl⟩
                rw [hid, List.nil_append]
              · have hstep : loadedStep id (activeRev id false rest)
                    (.callLoadHook i true) = activeRev id false rest := by
                  simp [loadedStep, hid]
                rw [hstep, ih]
                exact Iff.symm <| exists_split_cons_iff (.callLoadHook i true) rest id
                  (by simp [hid]) (by simp)
          | false =>
              rw [show loadedStep id (activeRev id false rest)
                    (.callLoadHook i false) = activeRev id false rest from rfl]
              rw [ih]
              exact Iff.symm <| exists_split_cons_iff (.callLoadHook i false) rest id
                (by simp) (by simp)
      | callUnloadHook i ok =>
          cases ok with
          | true =>
              by_cases hid : i = id
              · have hstep : loadedStep id (activeRev id false rest)
                    (.callUnloadHook i true) = false := by
                  simp [loadedStep, hid]
                rw [hstep]
                simp only [Bool.false_eq_true, false_iff]
                rw [hid]
                exact no_split_cons_unload rest id
              · have hstep : loadedStep id (activeRev id false rest)
                    (.callUnloadHook i true) = activeRev id false rest := by
                  simp [loadedStep, hid]
                rw [hstep, ih]
                exact Iff.symm <| exists_split_cons_iff (.callUnloadHook i true) rest id
                  (by simp) (by simp [hid])
          | false =>
              rw [show loadedStep id (activeRev id false rest)
                    (.callUnloadHook i false) = activeRev id false rest from rfl]
              rw [ih]
              exact Iff.symm <| exists_split_cons_iff (.callUnloadHook i false) rest id
                (by simp) (by simp)
      | importMod i =>
          rw [show loadedStep id (activeRev id false rest) (.importMod i) =
              activeRev id false rest from rfl]
          rw [ih]
          exact Iff.symm <| exists_split_cons_iff (.importMod i) rest id (by simp) (by simp)
      | legacyWarning i =>
          rw [show loadedStep id (activeRev id false rest) (.legacyWarning i) =
              activeRev id false rest from rfl]
          rw [ih]
          exact Iff.symm <| exists_split_cons_iff (.legacyWarning i) rest id (by simp) (by simp)
      | reloadMod i =>
          rw [show loadedStep id (activeRev id false rest) (.reloadMod i) =
              activeRev id false rest from rfl]
          rw [ih]
          exact Iff.symm <| exists_split_cons_iff (.reloadMod i) rest id (by simp) (by simp)
      | ensureDir d =>
          rw [show loadedStep id (activeRev id false rest) (.ensureDir d) =
              activeRev id false rest from rfl]
          rw [ih]
          exact Iff.symm <| exists_split_cons_iff (.ensureDir d) rest id (by simp) (by simp)
      | checkIsFile p =>
          rw [show loadedStep id (activeRev id false rest) (.checkIsFile p) =
              activeRev id false rest from rfl]
          rw [ih]
          exact Iff.symm <| exists_split_cons_iff (.checkIsFile p) rest id (by simp) (by simp)
      | copyFile a c =>
          rw [show loadedStep id (activeRev id false rest) (.copyFile a c) =
              activeRev id false rest from rfl]
          rw [ih]
          exact Iff.symm <| exists_split_cons_iff (.copyFile a c) rest id (by simp) (by simp)
      | download a c =>
          rw [show loadedStep id (activeRev id false rest) (.download a c) =
              activeRev id false rest from rfl]
          rw [ih]
          exact Iff.symm <| exists_split_cons_iff (.download a c) rest id (by simp) (by simp)

theorem loadActive_iff_loadedFrom (id : String) (tr : List Event) :
    LoadActive tr id ↔ loadedFrom id false tr = true := by
  rw [loadedFrom_eq_activeRev_reverse, activeRev_false_iff]
  unfold LoadActive
  constructor
  · rintro ⟨t1, t2, heq, hmem⟩
    refine ⟨t2.reverse, t1.reverse, ?_, ?_⟩
    · rw [heq]
      simp
    · simpa using hmem
  · rintro ⟨s1, s2, heq, hmem⟩
    refine ⟨s2.reverse, s1.reverse, ?_, ?_⟩
    · have h2 := congrArg List.reverse heq
      simpa using h2
    · simpa using hmem

theorem load_tail_mem_trace (s : EMState) (id : String) (mod : Module)
    (tr : List Event) (id' : String) (b : Bool)
    (hb : id' ∈ s.loaded ↔ b = true) (htr : loadedFrom id' b tr = b) :
    (id' ∈ (load_tail s id mod tr).state.loaded ↔
      loadedFrom id' b (load_tail s id mod tr).trace = true) := by
  by_cases h1 : mod.hasLoad
  · by_cases h2 : mod.loadRaises
    · rw [load_tail_raises s id mod tr h1 h2]
      simp only [loadedFrom_append, htr]
      simpa [loadedFrom, loadedStep] using hb
    · rw [load_tail_ok s id mod tr h1 (by simpa using h2)]
      simp only [loadedFrom_append, htr]
      by_cases hid : id = id'
      · subst hid
        simp [loadedFrom, loadedStep]
      · have hne : id' ≠ id := fun h => hid h.symm
        simp [loadedFrom, loadedStep, hid, hne, Finset.mem_insert, hb]
  · rw [load_tail_no_hook s id mod tr (by simpa using h1)]
    simp only [htr]
    simpa [htr] using hb

theorem load_extension_mem_trace (w : World) (s : EMState) (id id' : String)
    (b : Bool) (hb : id' ∈ s.loaded ↔ b = true) :
    (id' ∈ (load_extension w s id).state.loaded ↔
      loadedFrom id' b (load_extension w s id).trace = true) := by
  unfold load_extension
  by_cases hl : id ∈ s.loaded
  · rw [if_pos hl]
    simpa [loadedFrom] using hb
  · rw [if_neg hl]
    cases hm : s.modules.lookup id with
    | some mod =>
        simp only [hm]
        exact load_tail_mem_trace s id mod [] id' b hb rfl
    | none =>
        simp only [hm]
        cases hi : w.importFn id with
        | none =>
            simp only [hi]
            simpa [loadedFrom, loadedStep] using hb
        | some m =>
            simp only [hi]
            apply load_tail_mem_trace
            · exact hb
            · by_cases hw : strStartsWith m.file (ipython_extension_dir w)
              · simp [hw, loadedFrom, loadedStep]
              · simp [hw, loadedFrom, loadedStep]

theorem unload_extension_mem_trace (s : EMState) (id id' : String) (b : Bool)
    (hb : id' ∈ s.loaded ↔ b = true) :
    (id' ∈ (unload_extension s id).state.loaded ↔
      loadedFrom id' b (unload_extension s id).trace = true) := by
  unfold unload_extension
  by_cases hl : id ∉ s.loaded
  · rw [if_pos hl]
    simpa [loadedFrom] using hb
  · rw [if_neg hl]
    cases hm : s.modules.lookup id with
    | none =>
        simp only [hm]
        simpa [loadedFrom] using hb
    | some mod =>
        simp only [hm]
        unfold call_unload_ipython_extension
        by_cases h1 : mod.hasUnload
        · by_cases h2 : mod.unloadRaises
          · simpa [h1, h2, loadedFrom, loadedStep] using hb
          · by_cases hid : id = id'
            · subst hid
              simp [h1, h2, loadedFrom, loadedStep, Finset.mem_erase]
            · have hne : id' ≠ id := fun h => hid h.symm
              simp [h1, h2, hid, hne, loadedFrom, loadedStep,
                Finset.mem_erase, hb]
        · simpa [h1, loadedFrom] using hb

theorem reload_extension_mem_trace (w : World) (s : EMState) (id id' : String)
    (b : Bool) (hb : id' ∈ s.loaded ↔ b = true) :
    (id' ∈ (reload_extension w s id).state.loaded ↔
      loadedFrom id' b (reload_extension w s id).trace = true) := by
  unfold reload_extension
  by_cases hc : id ∈ s.loaded ∧ (s.modules.lookup id).isSome
  · rw [if_pos hc]
    obtain ⟨h1, h2⟩ := hc
    cases hm : s.modules.lookup id with
    | none =>
        rw [hm] at h2
        exact absurd h2 (by simp)
    | some mod =>
        by_cases hu : mod.hasUnload
        · by_cases hur : mod.unloadRaises
          · have hun : unload_extension s id =
                { ret := .error (.unloadHookError id), state := s
                  trace := [.callUnloadHook id false] } := by
              unfold unload_extension
              rw [if_neg (by simpa using h1)]
              simp only [hm]
              unfold call_unload_ipython_extension
              simp [hu, hur]
            rw [hun]
            simpa [loadedFrom, loadedStep] using hb
          · have hun : unload_extension s id =
                { ret := .ok none
                  state := { s with loaded := s.loaded.erase id }
                  trace := [.callUnloadHook id true] } := by
              unfold unload_extension
              rw [if_neg (by simpa using h1)]
              simp only [hm]
              unfold call_unload_ipython_extension
              simp [hu, hur]
            rw [hun]
            simp only [hm]
            unfold call_load_ipython_extension
            by_cases hl2 : (w.reloadFn id mod).hasLoad
            · by_cases hlr : (w.reloadFn id mod).loadRaises
              · by_cases hid : id = id'
                · subst hid
                  simp [hl2, hlr, loadedFrom, loadedStep, Finset.mem_erase]
                · have hne : id' ≠ id := fun h => hid h.symm
                  simp [hl2, hlr, hid, hne, loadedFrom, loadedStep,
                    Finset.mem_erase, hb]
              · by_cases hid : id = id'
                · subst hid
                  simp [hl2, hlr, loadedFrom, loadedStep]
                · have hne : id' ≠ id := fun h => hid h.symm
                  simp [hl2, hlr, hid, hne, loadedFrom, loadedStep,
                    Finset.mem_insert, Finset.mem_erase, hb]
            · by_cases hid : id = id'
              · subst hid
                simp [hl2, loadedFrom, loadedStep, Finset.mem_erase]
              · have hne : id' ≠ id := fun h => hid h.symm
                simp [hl2, hid, hne, loadedFrom, loadedStep,
                  Finset.mem_erase, hb]
        · have hun : unload_extension s id =
              { ret := .ok (some "no unload function"), state := s
                trace := [] } := by
            unfold unload_extension
            rw [if_neg (by simpa using h1)]
            simp only [hm]
            unfold call_unload_ipython_extension
            simp [hu]
          rw [hun]
          simp only [hm]
          unfold call_load_ipython_extension
          by_cases hl2 : (w.reloadFn id mod).hasLoad
          · by_cases hlr : (w.reloadFn id mod).loadRaises
            · simpa [hl2, hlr, loadedFrom, loadedStep] using hb
            · by_cases hid : id = id'
              · subst hid
                simp [hl2, hlr, loadedFrom, loadedStep]
              · have hne : id' ≠ id := fun h => hid h.symm
                simp [hl2, hlr, hid, hne, loadedFrom, loadedStep,
                  Finset.mem_insert, hb]
          · simpa [hl2, loadedFrom, loadedStep] using hb
  · rw [if_neg hc]
    simpa using load_extension_mem_trace w s id id' b hb

theorem install_trace_no_hooks (w : World) (url : String)
    (fname : Option String) (id : String) (b : Bool) :
    loadedFrom id b (install_extension w url fname).trace = b := by
  simp only [install_extension]
  split_ifs <;> simp [loadedFrom, loadedStep]

theorem runOp_mem_trace (w : World) (s : EMState) (op : Op) (id : String)
    (b : Bool) (hb : id ∈ s.loaded ↔ b = true) :
    (id ∈ (runOp w s op).1.loaded ↔
      loadedFrom id b (runOp w s op).2 = true) := by
  cases op with
  | load i => exact load_extension_mem_trace w s i id b hb
  | unload i => exact unload_extension_mem_trace s i id b hb
  | reload i => exact reload_extension_mem_trace w s i id b hb
  | install url fname =>
      simp only [runOp]
      rw [install_trace_no_hooks]
      exact hb

theorem runOps_mem_trace (w : World) (ops : List Op) :
    ∀ (s : EMState) (id : String) (b : Bool), (id ∈ s.loaded ↔ b = true) →
      (id ∈ (runOps w s ops).1.loaded ↔
        loadedFrom id b (runOps w s ops).2 = true) := by
  induction ops with
  | nil =>
      intro s id b hb
      simpa [runOps, loadedFrom] using hb
  | cons op ops ih =>
      intro s id b hb
      simp only [runOps]
      rw [loadedFrom_append]
      exact ih (runOp w s op).1 id (loadedFrom id b (runOp w s op).2)
        (runOp_mem_trace w s op id b hb)

/-- C1: `loaded` is empty at construction; running any sequence of manager
operations from a freshly constructed manager, an identifier is in
`loaded` exactly when some load hook call for it completed successfully
with no later successful unload hook call for it; and `install` (the only
operation besides load/unload/reload) never changes the manager state. -/
theorem c1_loaded_invariant (w : World) (ms : List (String × Module))
    (ops : List Op) (id : String) :
    (initState ms).loaded = ∅ ∧
    (∀ (s : EMState) (url : String) (fname : Option String),
      (runOp w s (.install url fname)).1 = s) ∧
    (id ∈ (runOps w (initState ms) ops).1.loaded ↔
      LoadActive (runOps w (initState ms) ops).2 id) := by
  refine ⟨rfl, fun s url fname => rfl, ?_⟩
  rw [loadActive_iff_loadedFrom]
  exact runOps_mem_trace w ops (initState ms) id false (by simp [initState])

/-- C7 witness: the delegation equations at the anomalous fixture state. -/
theorem c7_witness :
    ¬("ext" ∈ sAnomalous.loaded ∧ (sAnomalous.modules.lookup "ext").isSome) ∧
    ((reload_extension wFix sAnomalous "ext").state =
        (load_extension wFix sAnomalous "ext").state ∧
      (reload_extension wFix sAnomalous "ext").trace =
        (load_extension wFix sAnomalous "ext").trace ∧
      (reload_extension wFix sAnomalous "ext").ret =
        (match (load_extension wFix sAnomalous "ext").ret with
          | .error e => .error e
          | .ok _ => .ok none)) :=
  ⟨by decide, c7_delegation wFix sAnomalous "ext" (by decide)⟩

end IPyExt
